import Mathlib

/-!
Shallow embedding of the `EncryptedPredictionPoll` Solidity contract.

Ciphertext handles (`euint32`) are modelled by their plaintext-equivalent
values: natural numbers reduced modulo `2 ^ 32`, matching the FHEVM
semantics of `FHE.add` / `FHE.eq` / `FHE.select` on 32-bit encrypted
integers.  State-changing entry points return `Except PollError PollState`;
an `error` result models a full revert (no state change).  External
capabilities (proof verification in `FHE.fromExternal`, signature
verification in `FHE.checkSignatures`, the oracle request id returned by
`FHE.requestDecryption`) are modelled by explicit parameters.
-/

namespace EncryptedPredictionPoll

/-- Modulus of the 32-bit encrypted integers (`euint32`). -/
def U32 : Nat := 2 ^ 32

/-- Addresses are modelled as natural numbers. -/
abbrev Address := Nat

/-- Option metadata: `struct Option { string label; string description; }`. -/
structure OptionMeta where
  label : String
  description : String
deriving DecidableEq

/-- The custom errors declared by the contract, plus the two failure modes
propagated from the external FHE capability (invalid input proof in
`FHE.fromExternal`, invalid oracle signatures in `FHE.checkSignatures`). -/
inductive PollError where
  | InvalidOptionIndex (index : Nat)
  | VotingClosed
  | AlreadyVoted
  | DecryptionAlreadyPending
  | TallyNotFinalized
  | AlreadyFinalized
  | UnexpectedCallback
  | VotingStillOpen
  | InsufficientOptions
  | MismatchedOptionMetadata
  | InvalidVotingDuration
  | InvalidTallyLength
  | InvalidProof
  | InvalidSignature
deriving DecidableEq

/-- The contract storage of `EncryptedPredictionPoll`.  `encryptedTallies`
holds the plaintext-equivalent values of the `euint32` handles;
`hasVoted` is the list of addresses whose mapping entry is `true`. -/
structure PollState where
  pollName : String
  pollHeadline : String
  pollDescription : String
  startTime : Nat
  endTime : Nat
  creator : Address
  voterCount : Nat
  finalized : Bool
  decryptionPending : Bool
  decryptionRequestId : Nat
  encryptedTallies : List Nat
  clearTallies : List Nat
  options : List OptionMeta
  hasVoted : List Address
deriving DecidableEq

/-- The contract constructor.  `sender` is `msg.sender`, `timestamp` is
`block.timestamp` at deployment.  Each loop iteration pushes an option,
an encrypted zero tally and a clear zero tally. -/
def constructor (name headline description : String)
    (optionLabels optionDescriptions : List String)
    (votingDurationSeconds : Nat) (sender : Address) (timestamp : Nat) :
    Except PollError PollState :=
  if optionLabels.length < 2 then
    .error .InsufficientOptions
  else if optionDescriptions.length ≠ optionLabels.length then
    .error .MismatchedOptionMetadata
  else if votingDurationSeconds = 0 then
    .error .InvalidVotingDuration
  else
    .ok {
      pollName := name
      pollHeadline := headline
      pollDescription := description
      startTime := timestamp
      endTime := timestamp + votingDurationSeconds
      creator := sender
      voterCount := 0
      finalized := false
      decryptionPending := false
      decryptionRequestId := 0
      encryptedTallies := List.replicate optionLabels.length 0
      clearTallies := List.replicate optionLabels.length 0
      options := (optionLabels.zip optionDescriptions).map fun p => ⟨p.1, p.2⟩
      hasVoted := [] }

/-- `optionCount()`. -/
def optionCount (s : PollState) : Nat := s.options.length

/-- `getOption(index)`. -/
def getOption (s : PollState) (index : Nat) : Except PollError OptionMeta :=
  if s.options.length = 0 ∨ s.options.length - 1 < index then
    .error (.InvalidOptionIndex index)
  else
    .ok (s.options.getD index ⟨"", ""⟩)

/-- `getEncryptedTally(index)`: returns the plaintext-equivalent value of
the stored ciphertext handle. -/
def getEncryptedTally (s : PollState) (index : Nat) : Except PollError Nat :=
  if s.encryptedTallies.length = 0 ∨ s.encryptedTallies.length - 1 < index then
    .error (.InvalidOptionIndex index)
  else
    .ok (s.encryptedTallies.getD index 0)

/-- `getClearTally(index)`. -/
def getClearTally (s : PollState) (index : Nat) : Except PollError Nat :=
  if s.finalized = false then
    .error .TallyNotFinalized
  else if s.clearTallies.length = 0 ∨ s.clearTallies.length - 1 < index then
    .error (.InvalidOptionIndex index)
  else
    .ok (s.clearTallies.getD index 0)

/-- The tally loop of `submitEncryptedVote`, on plaintext-equivalent
values: entry `i` becomes `FHE.add(tally_i, FHE.select(FHE.eq(choice,
FHE.asEuint32(uint32(i))), 1, 0))`, i.e. `(tally_i + (if choice =
i mod 2^32 then 1 else 0)) mod 2^32`.  The first argument is the
(32-bit) plaintext of `choice`, the second the loop index. -/
def tallyIncrement (choice : Nat) : Nat → List Nat → List Nat
  | _, [] => []
  | i, t :: rest =>
    ((t + (if choice % U32 = i % U32 then 1 else 0)) % U32) ::
      tallyIncrement choice (i + 1) rest

/-- `submitEncryptedVote(encryptedOption, inputProof)`.  `choiceVal` is the
plaintext carried by the external ciphertext (imported into the 32-bit
space by `FHE.fromExternal`); `proofOk` models whether the accompanying
zk input proof verifies. -/
def submitEncryptedVote (s : PollState) (sender : Address) (timestamp : Nat)
    (choiceVal : Nat) (proofOk : Bool) : Except PollError PollState :=
  if timestamp < s.startTime ∨ s.endTime < timestamp then
    .error .VotingClosed
  else if sender ∈ s.hasVoted then
    .error .AlreadyVoted
  else if proofOk = false then
    .error .InvalidProof
  else
    .ok { s with
      encryptedTallies := tallyIncrement (choiceVal % U32) 0 s.encryptedTallies
      hasVoted := sender :: s.hasVoted
      voterCount := s.voterCount + 1 }

/-- `requestEncryptedTallyDecryption()`.  `rid` models the request id
returned by the external `FHE.requestDecryption`; the function returns
the new state together with the id. -/
def requestEncryptedTallyDecryption (s : PollState) (timestamp : Nat)
    (rid : Nat) : Except PollError (PollState × Nat) :=
  if timestamp = s.endTime ∨ timestamp < s.endTime then
    .error .VotingStillOpen
  else if s.finalized then
    .error .AlreadyFinalized
  else if s.decryptionPending then
    .error .DecryptionAlreadyPending
  else
    .ok ({ s with decryptionPending := true, decryptionRequestId := rid }, rid)

/-- `decryptionCallback(requestId, cleartexts, signatures)`.  The function
is `public` and never reads `msg.sender`; the `caller` parameter records
that fact.  `cleartexts` is the ABI-decoded `uint32[]` payload and
`sigOk` models `FHE.checkSignatures`.  Writing every entry of
`_clearTallies` from a payload of equal length is replacing the list. -/
def decryptionCallback (s : PollState) (_caller : Address) (requestId : Nat)
    (cleartexts : List Nat) (sigOk : Bool) : Except PollError PollState :=
  if s.decryptionPending = false ∨ requestId ≠ s.decryptionRequestId then
    .error .UnexpectedCallback
  else if sigOk = false then
    .error .InvalidSignature
  else if cleartexts.length ≠ s.clearTallies.length then
    .error .InvalidTallyLength
  else
    .ok { s with
      clearTallies := cleartexts
      finalized := true
      decryptionPending := false }

/-- `isVotingOpen()`. -/
def isVotingOpen (s : PollState) (timestamp : Nat) : Bool :=
  (decide (s.startTime < timestamp) || decide (timestamp = s.startTime)) &&
    (decide (timestamp < s.endTime) || decide (timestamp = s.endTime)) &&
    !s.finalized

/-- One state-changing entry point of the contract, with its arguments
(`block.timestamp` is supplied separately when the operation is applied). -/
inductive Op where
  | submit (sender : Address) (choiceVal : Nat) (proofOk : Bool)
  | request (rid : Nat)
  | callback (caller : Address) (requestId : Nat) (cleartexts : List Nat)
      (sigOk : Bool)
deriving DecidableEq

instance {ε α : Type} [DecidableEq ε] [DecidableEq α] :
    DecidableEq (Except ε α) := fun a b =>
  match a, b with
  | .ok x, .ok y =>
    if h : x = y then .isTrue (by rw [h])
    else .isFalse (fun hc => h (by injection hc))
  | .error e, .error f =>
    if h : e = f then .isTrue (by rw [h])
    else .isFalse (fun hc => h (by injection hc))
  | .ok _, .error _ => .isFalse (fun hc => Except.noConfusion hc)
  | .error _, .ok _ => .isFalse (fun hc => Except.noConfusion hc)

/-- Run one entry point at timestamp `now`. -/
def applyOp (s : PollState) (now : Nat) : Op → Except PollError PollState
  | .submit sender choiceVal proofOk =>
      submitEncryptedVote s sender now choiceVal proofOk
  | .request rid => (requestEncryptedTallyDecryption s now rid).map Prod.fst
  | .callback caller requestId cleartexts sigOk =>
      decryptionCallback s caller requestId cleartexts sigOk

/-- One transaction: a reverting call leaves the state unchanged. -/
def txApply (s : PollState) (now : Nat) (op : Op) : PollState :=
  match applyOp s now op with
  | .ok s' => s'
  | .error _ => s

/-- Process a list of timestamped transactions in order. -/
def runTxs (s : PollState) : List (Nat × Op) → PollState
  | [] => s
  | (ts, op) :: rest => runTxs (txApply s ts op) rest

/-- Timestamps of a transaction list are non-decreasing and bounded below
by the first argument (block timestamps never decrease). -/
def timesMono : Nat → List (Nat × Op) → Bool
  | _, [] => true
  | t, (ts, _) :: rest => decide (t ≤ ts) && timesMono ts rest

/-- The timestamp of the last transaction (or the lower bound for an empty
list). -/
def lastTime (t : Nat) : List (Nat × Op) → Nat
  | [] => t
  | (ts, _) :: rest => lastTime ts rest

/-- Run a list of votes `(sender, choiceVal)` at a fixed timestamp, each
with a valid input proof, stopping at the first revert. -/
def runVotes (ts : Nat) (s : PollState) :
    List (Address × Nat) → Except PollError PollState
  | [] => .ok s
  | v :: rest =>
    match submitEncryptedVote s v.1 ts v.2 true with
    | .ok s' => runVotes ts s' rest
    | .error e => .error e

/-- Sum of `getClearTally i` over all option indices `i < N` (a failing
read contributes zero). -/
def clearTallySum (s : PollState) : Nat :=
  ((List.range s.options.length).map fun i =>
    match getClearTally s i with
    | .ok v => v
    | .error _ => 0).sum

/-! ### Arithmetic lemmas about the tally loop -/

lemma U32_pos : 0 < U32 := by decide

lemma tallyIncrement_length (c : Nat) :
    ∀ (l : List Nat) (i : Nat), (tallyIncrement c i l).length = l.length := by
  intro l
  induction l with
  | nil => intro i; rfl
  | cons t rest ih => intro i; simp [tallyIncrement, ih]

lemma tallyIncrement_getD (c : Nat) :
    ∀ (l : List Nat) (i j : Nat), j < l.length →
      (tallyIncrement c i l).getD j 0 =
        (l.getD j 0 + (if c % U32 = (i + j) % U32 then 1 else 0)) % U32 := by
  intro l
  induction l with
  | nil => intro i j h; simp at h
  | cons t rest ih =>
    intro i j h
    cases j with
    | zero => simp [tallyIncrement]
    | succ j =>
      have hj : j < rest.length := by simpa using h
      simp only [tallyIncrement, List.getD_cons_succ]
      rw [ih (i + 1) j hj]
      have hidx : i + 1 + j = i + (j + 1) := by omega
      rw [hidx]

lemma tallyIncrement_sum (c : Nat) (hc : c < U32) :
    ∀ (l : List Nat) (i : Nat), (∀ t ∈ l, t + 1 < U32) → i + l.length ≤ U32 →
      (tallyIncrement c i l).sum =
        l.sum + (if i ≤ c ∧ c < i + l.length then 1 else 0) := by
  intro l
  induction l with
  | nil =>
    intro i _ _
    simp only [tallyIncrement, List.sum_nil, List.length_nil, Nat.add_zero,
      Nat.zero_add]
    rw [if_neg (by omega : ¬(i ≤ c ∧ c < i))]
  | cons t rest ih =>
    intro i hall hle
    have hlen : i + (rest.length + 1) ≤ U32 := by simpa using hle
    have hi : i % U32 = i := Nat.mod_eq_of_lt (by omega)
    have hcU : c % U32 = c := Nat.mod_eq_of_lt hc
    have ht1 : t + 1 < U32 := hall t (by simp)
    simp only [tallyIncrement, List.sum_cons, List.length_cons]
    rw [hcU, hi, ih (i + 1) (fun x hx => hall x (by simp [hx])) (by omega)]
    by_cases hci : c = i
    · subst hci
      rw [if_pos rfl, Nat.mod_eq_of_lt ht1, if_neg (by omega),
        if_pos (by omega : c ≤ c ∧ c < c + (rest.length + 1))]
      omega
    · rw [if_neg hci, Nat.mod_eq_of_lt (by omega : t + 0 < U32)]
      split_ifs <;> omega

lemma tallyIncrement_id (c : Nat) (hc : c < U32) :
    ∀ (l : List Nat) (i : Nat), (∀ t ∈ l, t < U32) → i + l.length ≤ U32 →
      (c < i ∨ i + l.length ≤ c) → tallyIncrement c i l = l := by
  intro l
  induction l with
  | nil => intro i _ _ _; rfl
  | cons t rest ih =>
    intro i hall hle hout
    simp only [List.length_cons] at hle hout
    have hi : i % U32 = i := Nat.mod_eq_of_lt (by omega)
    have hcU : c % U32 = c := Nat.mod_eq_of_lt hc
    have ht : t < U32 := hall t (by simp)
    simp only [tallyIncrement]
    rw [hcU, hi, if_neg (by omega : ¬c = i),
      Nat.mod_eq_of_lt (by omega : t + 0 < U32),
      ih (i + 1) (fun x hx => hall x (by simp [hx])) (by omega) (by omega)]
    simp

lemma tallyIncrement_mem (c : Nat) :
    ∀ (l : List Nat) (i : Nat) (x : Nat), x ∈ tallyIncrement c i l →
      ∃ t ∈ l, x ≤ t + 1 := by
  intro l
  induction l with
  | nil => intro i x h; simp [tallyIncrement] at h
  | cons t rest ih =>
    intro i x h
    simp only [tallyIncrement, List.mem_cons] at h
    rcases h with h | h
    · refine ⟨t, by simp, ?_⟩
      subst h
      calc (t + (if c % U32 = i % U32 then 1 else 0)) % U32
          ≤ t + (if c % U32 = i % U32 then 1 else 0) := Nat.mod_le _ _
        _ ≤ t + 1 := by split_ifs <;> omega
    · obtain ⟨u, hu, hx⟩ := ih (i + 1) x h
      exact ⟨u, by simp [hu], hx⟩

/-! ### Exhaustive case analyses of the three entry points -/

lemma submit_cases (s : PollState) (sender ts c : Nat) (p : Bool) :
    ((ts < s.startTime ∨ s.endTime < ts) ∧
      submitEncryptedVote s sender ts c p = .error .VotingClosed) ∨
    (¬(ts < s.startTime ∨ s.endTime < ts) ∧ sender ∈ s.hasVoted ∧
      submitEncryptedVote s sender ts c p = .error .AlreadyVoted) ∨
    (¬(ts < s.startTime ∨ s.endTime < ts) ∧ sender ∉ s.hasVoted ∧ p = false ∧
      submitEncryptedVote s sender ts c p = .error .InvalidProof) ∨
    (¬(ts < s.startTime ∨ s.endTime < ts) ∧ sender ∉ s.hasVoted ∧ p = true ∧
      submitEncryptedVote s sender ts c p = .ok { s with
        encryptedTallies := tallyIncrement (c % U32) 0 s.encryptedTallies
        hasVoted := sender :: s.hasVoted
        voterCount := s.voterCount + 1 }) := by
  unfold submitEncryptedVote
  split
  · rename_i h; exact Or.inl ⟨h, rfl⟩
  · rename_i h
    split
    · rename_i h2; exact Or.inr (Or.inl ⟨h, h2, rfl⟩)
    · rename_i h2
      split
      · rename_i h3; exact Or.inr (Or.inr (Or.inl ⟨h, h2, h3, rfl⟩))
      · rename_i h3
        exact Or.inr (Or.inr (Or.inr ⟨h, h2, by
          cases p with
          | false => exact absurd rfl h3
          | true => exact rfl, rfl⟩))

lemma request_cases (s : PollState) (ts rid : Nat) :
    (ts ≤ s.endTime ∧
      requestEncryptedTallyDecryption s ts rid = .error .VotingStillOpen) ∨
    (s.endTime < ts ∧ s.finalized = true ∧
      requestEncryptedTallyDecryption s ts rid = .error .AlreadyFinalized) ∨
    (s.endTime < ts ∧ s.finalized = false ∧ s.decryptionPending = true ∧
      requestEncryptedTallyDecryption s ts rid = .error .DecryptionAlreadyPending) ∨
    (s.endTime < ts ∧ s.finalized = false ∧ s.decryptionPending = false ∧
      requestEncryptedTallyDecryption s ts rid = .ok
        ({ s with decryptionPending := true, decryptionRequestId := rid }, rid)) := by
  unfold requestEncryptedTallyDecryption
  split
  · rename_i h; exact Or.inl ⟨by omega, rfl⟩
  · rename_i h
    have hts : s.endTime < ts := by omega
    split
    · rename_i h2; exact Or.inr (Or.inl ⟨hts, h2, rfl⟩)
    · rename_i h2
      have hf : s.finalized = false := by
        cases hfin : s.finalized with
        | false => rfl
        | true => exact absurd hfin h2
      split
      · rename_i h3; exact Or.inr (Or.inr (Or.inl ⟨hts, hf, h3, rfl⟩))
      · rename_i h3
        have hp : s.decryptionPending = false := by
          cases hpen : s.decryptionPending with
          | false => rfl
          | true => exact absurd hpen h3
        exact Or.inr (Or.inr (Or.inr ⟨hts, hf, hp, rfl⟩))

lemma callback_cases (s : PollState) (caller rid : Nat) (cl : List Nat)
    (sg : Bool) :
    ((s.decryptionPending = false ∨ rid ≠ s.decryptionRequestId) ∧
      decryptionCallback s caller rid cl sg = .error .UnexpectedCallback) ∨
    (s.decryptionPending = true ∧ rid = s.decryptionRequestId ∧ sg = false ∧
      decryptionCallback s caller rid cl sg = .error .InvalidSignature) ∨
    (s.decryptionPending = true ∧ rid = s.decryptionRequestId ∧ sg = true ∧
      cl.length ≠ s.clearTallies.length ∧
      decryptionCallback s caller rid cl sg = .error .InvalidTallyLength) ∨
    (s.decryptionPending = true ∧ rid = s.decryptionRequestId ∧ sg = true ∧
      cl.length = s.clearTallies.length ∧
      decryptionCallback s caller rid cl sg = .ok { s with
        clearTallies := cl
        finalized := true
        decryptionPending := false }) := by
  unfold decryptionCallback
  split
  · rename_i h; exact Or.inl ⟨h, rfl⟩
  · rename_i h
    push_neg at h
    obtain ⟨hpen, hrid⟩ := h
    have hp : s.decryptionPending = true := by
      cases hx : s.decryptionPending with
      | false => exact absurd hx hpen
      | true => rfl
    split
    · rename_i h2; exact Or.inr (Or.inl ⟨hp, hrid, h2, rfl⟩)
    · rename_i h2
      have hsg : sg = true := by
        cases sg with
        | false => exact absurd rfl h2
        | true => rfl
      split
      · rename_i h3; exact Or.inr (Or.inr (Or.inl ⟨hp, hrid, hsg, h3, rfl⟩))
      · rename_i h3
        exact Or.inr (Or.inr (Or.inr ⟨hp, hrid, hsg, by omega, rfl⟩))

/-! ### Transaction-level lemmas -/

lemma txApply_of_ok {s : PollState} {now : Nat} {op : Op} {s' : PollState}
    (h : applyOp s now op = .ok s') : txApply s now op = s' := by
  simp [txApply, h]

lemma txApply_of_error {s : PollState} {now : Nat} {op : Op} {e : PollError}
    (h : applyOp s now op = .error e) : txApply s now op = s := by
  simp [txApply, h]

/-- No entry point ever mutates the poll metadata, the option list, or the
voting window. -/
lemma txApply_immutable (s : PollState) (now : Nat) (op : Op) :
    (txApply s now op).pollName = s.pollName ∧
    (txApply s now op).pollHeadline = s.pollHeadline ∧
    (txApply s now op).pollDescription = s.pollDescription ∧
    (txApply s now op).startTime = s.startTime ∧
    (txApply s now op).endTime = s.endTime ∧
    (txApply s now op).options = s.options ∧
    (txApply s now op).creator = s.creator := by
  rcases op with ⟨sender, c, p⟩ | ⟨rid⟩ | ⟨caller, rid, cl, sg⟩
  · rcases submit_cases s sender now c p with
      ⟨_, h⟩ | ⟨_, _, h⟩ | ⟨_, _, _, h⟩ | ⟨_, _, _, h⟩ <;>
      simp [txApply, applyOp, h]
  · rcases request_cases s now rid with
      ⟨_, h⟩ | ⟨_, _, h⟩ | ⟨_, _, _, h⟩ | ⟨_, _, _, h⟩ <;>
      simp [txApply, applyOp, h, Except.map]
  · rcases callback_cases s caller rid cl sg with
      ⟨_, h⟩ | ⟨_, _, _, h⟩ | ⟨_, _, _, _, h⟩ | ⟨_, _, _, _, h⟩ <;>
      simp [txApply, applyOp, h]

lemma runTxs_immutable :
    ∀ (txs : List (Nat × Op)) (s : PollState),
      (runTxs s txs).pollName = s.pollName ∧
      (runTxs s txs).pollHeadline = s.pollHeadline ∧
      (runTxs s txs).pollDescription = s.pollDescription ∧
      (runTxs s txs).startTime = s.startTime ∧
      (runTxs s txs).endTime = s.endTime ∧
      (runTxs s txs).options = s.options ∧
      (runTxs s txs).creator = s.creator := by
  intro txs
  induction txs with
  | nil => intro s; exact ⟨rfl, rfl, rfl, rfl, rfl, rfl, rfl⟩
  | cons tx rest ih =>
    intro s
    rcases tx with ⟨ts, op⟩
    obtain ⟨h1, h2, h3, h4, h5, h6, h7⟩ := txApply_immutable s ts op
    obtain ⟨g1, g2, g3, g4, g5, g6, g7⟩ := ih (txApply s ts op)
    exact ⟨g1.trans h1, g2.trans h2, g3.trans h3, g4.trans h4, g5.trans h5,
      g6.trans h6, g7.trans h7⟩

/-- Once `finalized` is set (and no request is pending), every transaction
keeps it set, keeps `decryptionPending` clear, and keeps the clear
tallies intact. -/
lemma txApply_final_stable (s : PollState) (now : Nat) (op : Op)
    (hf : s.finalized = true) (hp : s.decryptionPending = false) :
    (txApply s now op).finalized = true ∧
    (txApply s now op).decryptionPending = false ∧
    (txApply s now op).clearTallies = s.clearTallies := by
  rcases op with ⟨sender, c, p⟩ | ⟨rid⟩ | ⟨caller, rid, cl, sg⟩
  · rcases submit_cases s sender now c p with
      ⟨_, h⟩ | ⟨_, _, h⟩ | ⟨_, _, _, h⟩ | ⟨_, _, _, h⟩ <;>
      simp [txApply, applyOp, h, hf, hp]
  · rcases request_cases s now rid with
      ⟨_, h⟩ | ⟨_, _, h⟩ | ⟨_, hfin, _, _⟩ | ⟨_, hfin, _, _⟩
    · simp [txApply, applyOp, h, hf, hp, Except.map]
    · simp [txApply, applyOp, h, hf, hp, Except.map]
    · rw [hf] at hfin; exact Bool.noConfusion hfin
    · rw [hf] at hfin; exact Bool.noConfusion hfin
  · rcases callback_cases s caller rid cl sg with
      ⟨_, h⟩ | ⟨hpen, _, _, _⟩ | ⟨hpen, _, _, _, _⟩ | ⟨hpen, _, _, _, _⟩
    · simp [txApply, applyOp, h, hf, hp]
    · rw [hp] at hpen; exact Bool.noConfusion hpen
    · rw [hp] at hpen; exact Bool.noConfusion hpen
    · rw [hp] at hpen; exact Bool.noConfusion hpen

lemma runTxs_final_stable :
    ∀ (txs : List (Nat × Op)) (s : PollState), s.finalized = true →
      s.decryptionPending = false →
      (runTxs s txs).finalized = true ∧
      (runTxs s txs).decryptionPending = false ∧
      (runTxs s txs).clearTallies = s.clearTallies := by
  intro txs
  induction txs with
  | nil => intro s hf hp; exact ⟨hf, hp, rfl⟩
  | cons tx rest ih =>
    intro s hf hp
    rcases tx with ⟨ts, op⟩
    obtain ⟨h1, h2, h3⟩ := txApply_final_stable s ts op hf hp
    obtain ⟨g1, g2, g3⟩ := ih (txApply s ts op) h1 h2
    exact ⟨g1, g2, g3.trans h3⟩

/-! ### The lifecycle invariant over timestamp-monotone traces -/

/-- Lifecycle invariant: `now` is the timestamp of the latest processed
transaction.  A pending request or a finalized poll implies that the
voting window has already elapsed, and the two flags never hold
together. -/
def Inv (s : PollState) (now : Nat) : Prop :=
  (s.decryptionPending = true → s.endTime < now) ∧
  (s.finalized = true → s.endTime < now) ∧
  ¬(s.decryptionPending = true ∧ s.finalized = true)

lemma Inv_mono {s : PollState} {now ts : Nat} (h : Inv s now) (hle : now ≤ ts) :
    Inv s ts :=
  ⟨fun hx => lt_of_lt_of_le (h.1 hx) hle,
   fun hx => lt_of_lt_of_le (h.2.1 hx) hle, h.2.2⟩

lemma Inv_step (s : PollState) (now ts : Nat) (op : Op) (h : Inv s now)
    (hle : now ≤ ts) : Inv (txApply s ts op) ts := by
  obtain ⟨hP, hF, hPF⟩ := Inv_mono h hle
  rcases op with ⟨sender, c, p⟩ | ⟨rid⟩ | ⟨caller, rid, cl, sg⟩
  · rcases submit_cases s sender ts c p with
      ⟨_, hr⟩ | ⟨_, _, hr⟩ | ⟨_, _, _, hr⟩ | ⟨_, _, _, hr⟩ <;>
      (simp only [txApply, applyOp, hr]; exact ⟨hP, hF, hPF⟩)
  · rcases request_cases s ts rid with
      ⟨_, hr⟩ | ⟨_, _, hr⟩ | ⟨_, _, _, hr⟩ | ⟨hts, hfin, _, hr⟩
    · simp only [txApply, applyOp, hr, Except.map]; exact ⟨hP, hF, hPF⟩
    · simp only [txApply, applyOp, hr, Except.map]; exact ⟨hP, hF, hPF⟩
    · simp only [txApply, applyOp, hr, Except.map]; exact ⟨hP, hF, hPF⟩
    · simp only [txApply, applyOp, hr, Except.map]
      refine ⟨fun _ => hts, fun hx => ?_, fun hx => ?_⟩
      · exact absurd hx (by simp [hfin])
      · exact absurd hx.2 (by simp [hfin])
  · rcases callback_cases s caller rid cl sg with
      ⟨_, hr⟩ | ⟨_, _, _, hr⟩ | ⟨_, _, _, _, hr⟩ | ⟨hpen, _, _, _, hr⟩
    · simp only [txApply, applyOp, hr]; exact ⟨hP, hF, hPF⟩
    · simp only [txApply, applyOp, hr]; exact ⟨hP, hF, hPF⟩
    · simp only [txApply, applyOp, hr]; exact ⟨hP, hF, hPF⟩
    · simp only [txApply, applyOp, hr]
      have hend : s.endTime < ts := hP hpen
      refine ⟨fun hx => ?_, fun _ => hend, fun hx => ?_⟩
      · exact absurd hx (by simp)
      · exact absurd hx.1 (by simp)

lemma Inv_runTxs :
    ∀ (txs : List (Nat × Op)) (s : PollState) (now : Nat), Inv s now →
      timesMono now txs = true →
      Inv (runTxs s txs) (lastTime now txs) := by
  intro txs
  induction txs with
  | nil => intro s now h _; exact h
  | cons tx rest ih =>
    intro s now h hmono
    rcases tx with ⟨ts, op⟩
    simp only [timesMono, Bool.and_eq_true, decide_eq_true_eq] at hmono
    exact ih (txApply s ts op) ts (Inv_step s now ts op h hmono.1) hmono.2

/-! ### Constructor inversion and vote-sequence lemmas -/

lemma constructor_ok_inv {nm hl dsc : String} {ls ds : List String}
    {dur dep t0 : Nat} {s0 : PollState}
    (hc : constructor nm hl dsc ls ds dur dep t0 = .ok s0) :
    2 ≤ ls.length ∧ ds.length = ls.length ∧ dur ≠ 0 ∧
      s0 = {
        pollName := nm
        pollHeadline := hl
        pollDescription := dsc
        startTime := t0
        endTime := t0 + dur
        creator := dep
        voterCount := 0
        finalized := false
        decryptionPending := false
        decryptionRequestId := 0
        encryptedTallies := List.replicate ls.length 0
        clearTallies := List.replicate ls.length 0
        options := (ls.zip ds).map fun p => ⟨p.1, p.2⟩
        hasVoted := [] } := by
  unfold constructor at hc
  split at hc
  · exact Except.noConfusion hc
  · split at hc
    · exact Except.noConfusion hc
    · split at hc
      · exact Except.noConfusion hc
      · rename_i h1 h2 h3
        refine ⟨by omega, by omega, h3, ?_⟩
        injection hc with hc
        exact hc.symm

lemma submit_ok_eq (s : PollState) (sender ts c : Nat)
    (h1 : ¬(ts < s.startTime ∨ s.endTime < ts)) (h2 : sender ∉ s.hasVoted) :
    submitEncryptedVote s sender ts c true = .ok { s with
      encryptedTallies := tallyIncrement (c % U32) 0 s.encryptedTallies
      hasVoted := sender :: s.hasVoted
      voterCount := s.voterCount + 1 } := by
  unfold submitEncryptedVote
  rw [if_neg h1, if_neg h2, if_neg (by simp : ¬(true = false))]

lemma runVotes_append (ts : Nat) :
    ∀ (xs ys : List (Address × Nat)) (s : PollState),
      runVotes ts s (xs ++ ys) = match runVotes ts s xs with
        | .ok s' => runVotes ts s' ys
        | .error e => .error e := by
  intro xs
  induction xs with
  | nil => intro ys s; rfl
  | cons v rest ih =>
    intro ys s
    simp only [List.cons_append, runVotes]
    cases hsub : submitEncryptedVote s v.1 ts v.2 true with
    | ok s' => exact ih ys s'
    | error e => rfl

/-- Running a list of fresh, pairwise-distinct voters with in-range choices
inside the window succeeds and adds one ballot per vote to the total
encrypted tally (no 32-bit wrap occurs thanks to the headroom
hypothesis). -/
lemma runVotes_ok (ts : Nat) :
    ∀ (vs : List (Address × Nat)) (s : PollState),
      ¬(ts < s.startTime ∨ s.endTime < ts) →
      (∀ v ∈ vs, v.1 ∉ s.hasVoted) →
      (vs.map Prod.fst).Nodup →
      (∀ v ∈ vs, v.2 < s.encryptedTallies.length) →
      s.encryptedTallies.length ≤ U32 →
      (∀ t ∈ s.encryptedTallies, t + vs.length < U32) →
      ∃ s', runVotes ts s vs = .ok s' ∧
        s'.encryptedTallies.sum = s.encryptedTallies.sum + vs.length ∧
        s'.encryptedTallies.length = s.encryptedTallies.length ∧
        s'.voterCount = s.voterCount + vs.length ∧
        s'.startTime = s.startTime ∧ s'.endTime = s.endTime ∧
        s'.options = s.options ∧ s'.clearTallies = s.clearTallies ∧
        s'.finalized = s.finalized ∧
        s'.decryptionPending = s.decryptionPending ∧
        s'.decryptionRequestId = s.decryptionRequestId := by
  intro vs
  induction vs with
  | nil =>
    intro s _ _ _ _ _ _
    exact ⟨s, rfl, by simp, rfl, by simp, rfl, rfl, rfl, rfl, rfl, rfl, rfl⟩
  | cons v rest ih =>
    intro s hwin hfresh hnodup hopt hNU hroom
    have hvnot : v.1 ∉ s.hasVoted := hfresh v (by simp)
    have hsub := submit_ok_eq s v.1 ts v.2 hwin hvnot
    set s1 : PollState := { s with
      encryptedTallies := tallyIncrement (v.2 % U32) 0 s.encryptedTallies
      hasVoted := v.1 :: s.hasVoted
      voterCount := s.voterCount + 1 } with hs1
    have hlen1 : s1.encryptedTallies.length = s.encryptedTallies.length :=
      tallyIncrement_length _ _ _
    have hchoice : v.2 < s.encryptedTallies.length := hopt v (by simp)
    have hcU : v.2 % U32 = v.2 := Nat.mod_eq_of_lt (by omega)
    have hnodup' : (rest.map Prod.fst).Nodup :=
      (List.nodup_cons.mp (by simpa using hnodup)).2
    have hvnotrest : v.1 ∉ rest.map Prod.fst :=
      (List.nodup_cons.mp (by simpa using hnodup)).1
    have hfresh1 : ∀ w ∈ rest, w.1 ∉ s1.hasVoted := by
      intro w hw
      have hmem : w.1 ∈ rest.map Prod.fst := List.mem_map_of_mem _ hw
      have hne : w.1 ≠ v.1 := by
        intro hEq
        exact hvnotrest (hEq ▸ hmem)
      simp only [hs1, List.mem_cons]
      rintro (hc | hc)
      · exact hne hc
      · exact hfresh w (by simp [hw]) hc
    have hopt1 : ∀ w ∈ rest, w.2 < s1.encryptedTallies.length := by
      intro w hw
      rw [hlen1]
      exact hopt w (by simp [hw])
    have hroom1 : ∀ t ∈ s1.encryptedTallies, t + rest.length < U32 := by
      intro t ht
      obtain ⟨u, hu, htu⟩ := tallyIncrement_mem _ _ _ _ ht
      have := hroom u hu
      simp only [List.length_cons] at this
      omega
    obtain ⟨s', hrun, hsum, hlen, hvc, hst, hen, hop, hcl, hfin, hpen, hrid⟩ :=
      ih s1 hwin hfresh1 hnodup' hopt1 (by rw [hlen1]; exact hNU) hroom1
    have hsum1 : s1.encryptedTallies.sum = s.encryptedTallies.sum + 1 := by
      have := tallyIncrement_sum (v.2 % U32) (by omega)
        s.encryptedTallies 0
        (fun t ht => by
          have := hroom t ht
          simp only [List.length_cons] at this
          omega)
        (by omega)
      rw [this, if_pos (by omega : 0 ≤ v.2 % U32 ∧
        v.2 % U32 < 0 + s.encryptedTallies.length)]
    refine ⟨s', ?_, ?_, ?_, ?_, hst, hen, hop, hcl, hfin, hpen, hrid⟩
    · simp only [runVotes, hsub]
      exact hrun
    · rw [hsum, hsum1]
      simp only [List.length_cons]
      omega
    · rw [hlen, hlen1]
    · rw [hvc]
      simp only [hs1, List.length_cons]
      omega

/-- The run used as the overflow counterexample: `n` distinct voters all
choose option 0 of a two-option poll; the first encrypted tally wraps
modulo `2 ^ 32`. -/
lemma runVotes_range (ts : Nat) (s : PollState)
    (hwin : ¬(ts < s.startTime ∨ s.endTime < ts))
    (a b : Nat) (ha : a < U32) (hb : b < U32)
    (htal : s.encryptedTallies = [a, b]) (hvot : s.hasVoted = []) :
    ∀ n, runVotes ts s ((List.range n).map fun x => (x, 0)) = .ok { s with
      encryptedTallies := [(a + n) % U32, b]
      hasVoted := (List.range n).reverse
      voterCount := s.voterCount + n } := by
  intro n
  induction n with
  | zero =>
    simp only [List.range_zero, List.map_nil, List.reverse_nil, runVotes,
      Nat.add_zero]
    rw [Nat.mod_eq_of_lt ha, ← htal, ← hvot]
  | succ n ihn =>
    rw [List.range_succ, List.map_append, runVotes_append, ihn]
    set sn : PollState := { s with
      encryptedTallies := [(a + n) % U32, b]
      hasVoted := (List.range n).reverse
      voterCount := s.voterCount + n } with hsn
    have hwn : ¬(ts < sn.startTime ∨ sn.endTime < ts) := hwin
    have hnv : (n : Address) ∉ sn.hasVoted := by
      simp [hsn, List.mem_reverse, List.mem_range]
    have hsub := submit_ok_eq sn n ts 0 hwn hnv
    simp only [List.map_cons, List.map_nil, runVotes, hsub]
    have htup : tallyIncrement (0 % U32) 0 sn.encryptedTallies =
        [(a + (n + 1)) % U32, b] := by
      show tallyIncrement (0 % U32) 0 [(a + n) % U32, b] = _
      simp only [tallyIncrement]
      rw [if_pos (by decide : (0 : Nat) % U32 % U32 = 0 % U32),
        if_neg (by decide : ¬(0 : Nat) % U32 % U32 = (0 + 1) % U32),
        Nat.mod_add_mod]
      simp [Nat.mod_eq_of_lt hb, Nat.add_assoc]
    rw [htup]
    have hrev : (n : Address) :: (List.range n).reverse =
        (List.range n ++ [n]).reverse := by
      rw [List.reverse_append]
      rfl
    show Except.ok ({ sn with
      encryptedTallies := [(a + (n + 1)) % U32, b]
      hasVoted := n :: (List.range n).reverse
      voterCount := sn.voterCount + 1 } : PollState) = _
    rw [hrev]
    show Except.ok ({ s with
      encryptedTallies := [(a + (n + 1)) % U32, b]
      hasVoted := (List.range n ++ [n]).reverse
      voterCount := s.voterCount + n + 1 } : PollState) = _
    rw [Nat.add_assoc]

/-- Reading every position of a list through `getD` reassembles the list. -/
lemma rangeMapGetD : ∀ (l : List Nat),
    ((List.range l.length).map fun i => l.getD i 0) = l := by
  intro l
  induction l with
  | nil => rfl
  | cons t rest ih =>
    rw [List.length_cons, List.range_succ_eq_map, List.map_cons, List.map_map]
    have hcomp : ((fun i => (t :: rest).getD i 0) ∘ Nat.succ) =
        fun i => rest.getD i 0 := by
      funext i
      simp [Function.comp]
    rw [List.getD_cons_zero, hcomp, ih]

/-- After finalization the published per-option sum is just the sum of the
stored clear tallies. -/
lemma clearTallySum_eq (s : PollState) (hf : s.finalized = true)
    (hlen : s.clearTallies.length = s.options.length) :
    clearTallySum s = s.clearTallies.sum := by
  unfold clearTallySum
  have hget : ∀ i < s.options.length,
      getClearTally s i = .ok (s.clearTallies.getD i 0) := by
    intro i hi
    unfold getClearTally
    rw [if_neg (by simp [hf]), if_neg (by omega :
      ¬(s.clearTallies.length = 0 ∨ s.clearTallies.length - 1 < i))]
  have hmapeq : ((List.range s.options.length).map fun i =>
      match getClearTally s i with
      | .ok v => v
      | .error _ => 0) =
      (List.range s.options.length).map fun i => s.clearTallies.getD i 0 := by
    apply List.map_congr_left
    intro i hi
    rw [hget i (List.mem_range.mp hi)]
  rw [hmapeq, ← hlen, rangeMapGetD]

/-! ### Concrete states used by witnesses and counterexamples -/

/-- The state produced by
`constructor "Poll" "Headline" "Body" ["A","B","C"] ["a","b","c"] 10 0 10`. -/
def samplePoll : PollState := {
  pollName := "Poll"
  pollHeadline := "Headline"
  pollDescription := "Body"
  startTime := 10
  endTime := 20
  creator := 0
  voterCount := 0
  finalized := false
  decryptionPending := false
  decryptionRequestId := 0
  encryptedTallies := [0, 0, 0]
  clearTallies := [0, 0, 0]
  options := [⟨"A", "a"⟩, ⟨"B", "b"⟩, ⟨"C", "c"⟩]
  hasVoted := [] }

/-- `samplePoll` after identity 7 has voted. -/
def sampleVoted : PollState :=
  { samplePoll with hasVoted := [7], voterCount := 1 }

/-- `samplePoll` with an outstanding decryption request (id 5). -/
def samplePending : PollState :=
  { samplePoll with decryptionPending := true, decryptionRequestId := 5 }

/-- `samplePending` after a successful callback with payload `[1, 2, 0]`. -/
def sampleFinal : PollState :=
  { samplePending with
    clearTallies := [1, 2, 0]
    finalized := true
    decryptionPending := false }

/-! ### Claim C1 -/

/-- C1 as stated is false: `submitEncryptedVote` also succeeds when the
encrypted index (here 3) is out of range for the 3 options, and then no
counter is incremented — the call succeeds yet every plaintext tally is
unchanged, so it is not the case that exactly one counter was
incremented by one. -/
theorem C1_counterexample :
    submitEncryptedVote samplePoll 1 10 3 true =
      .ok { samplePoll with hasVoted := [1], voterCount := 1 } ∧
    ({ samplePoll with hasVoted := [1], voterCount := 1 } :
      PollState).encryptedTallies = samplePoll.encryptedTallies ∧
    ¬∃ j < samplePoll.encryptedTallies.length,
      ({ samplePoll with hasVoted := [1], voterCount := 1 } :
        PollState).encryptedTallies.getD j 0 =
        samplePoll.encryptedTallies.getD j 0 + 1 := by
  decide

/-- C1 (amended): for every successful `submitEncryptedVote` whose
encrypted option index is in range (`c < N`, with `N ≤ 2^32` and 32-bit
tally plaintexts), exactly one of the `N` encrypted counters has its
plaintext-equivalent value incremented by one (modulo `2^32`) and the
other `N - 1` are unchanged. -/
theorem C1_in_range_vote_increments_exactly_one (s : PollState)
    (sender ts c : Nat)
    (hw : ¬(ts < s.startTime ∨ s.endTime < ts))
    (hv : sender ∉ s.hasVoted)
    (hrange : c < s.encryptedTallies.length)
    (hNU : s.encryptedTallies.length ≤ U32)
    (hlt : ∀ t ∈ s.encryptedTallies, t < U32) :
    ∃ s', submitEncryptedVote s sender ts c true = .ok s' ∧
      s'.encryptedTallies.length = s.encryptedTallies.length ∧
      s'.encryptedTallies.getD c 0 =
        (s.encryptedTallies.getD c 0 + 1) % U32 ∧
      ∀ j, j < s.encryptedTallies.length → j ≠ c →
        s'.encryptedTallies.getD j 0 = s.encryptedTallies.getD j 0 := by
  have hcU : c % U32 = c := Nat.mod_eq_of_lt (by omega)
  refine ⟨_, submit_ok_eq s sender ts c hw hv,
    tallyIncrement_length _ _ _, ?_, ?_⟩
  · show (tallyIncrement (c % U32) 0 s.encryptedTallies).getD c 0 = _
    rw [tallyIncrement_getD _ _ _ _ hrange, if_pos (by simp [hcU])]
  · intro j hj hne
    have hjU : j % U32 = j := Nat.mod_eq_of_lt (by omega)
    have hmem : s.encryptedTallies.getD j 0 ∈ s.encryptedTallies := by
      rw [List.getD_eq_getElem _ _ hj]
      exact List.getElem_mem hj
    show (tallyIncrement (c % U32) 0 s.encryptedTallies).getD j 0 = _
    rw [tallyIncrement_getD _ _ _ _ hj, if_neg (by simp [hcU, hjU]; omega),
      Nat.add_zero, Nat.mod_eq_of_lt (hlt _ hmem)]

/-- Witness for the amended C1: identity 1 votes option 1 of `samplePoll`
at time 10; tally 1 goes from 0 to 1, tallies 0 and 2 stay 0. -/
theorem C1_witness :
    ¬((10:Nat) < samplePoll.startTime ∨ samplePoll.endTime < 10) ∧
    (1:Address) ∉ samplePoll.hasVoted ∧
    (1:Nat) < samplePoll.encryptedTallies.length ∧
    samplePoll.encryptedTallies.length ≤ U32 ∧
    (∀ t ∈ samplePoll.encryptedTallies, t < U32) ∧
    ∃ s', submitEncryptedVote samplePoll 1 10 1 true = .ok s' ∧
      s'.encryptedTallies.length = samplePoll.encryptedTallies.length ∧
      s'.encryptedTallies.getD 1 0 =
        (samplePoll.encryptedTallies.getD 1 0 + 1) % U32 ∧
      ∀ j, j < samplePoll.encryptedTallies.length → j ≠ 1 →
        s'.encryptedTallies.getD j 0 = samplePoll.encryptedTallies.getD j 0 :=
  ⟨by decide, by decide, by decide, by decide, by decide,
    C1_in_range_vote_increments_exactly_one samplePoll 1 10 1 (by decide)
      (by decide) (by decide) (by decide) (by decide)⟩

/-! ### Claim C3 -/

/-- C3: a ballot whose encrypted index is at least `N` is accepted: the
sender's `hasVoted` flag is set, `voterCount` increments, yet every
encrypted tally is unchanged — so `voterCount` can strictly exceed the
sum of all tallies. -/
theorem C3_out_of_range_vote_counted_but_untallied (s : PollState)
    (sender ts c : Nat)
    (hw : ¬(ts < s.startTime ∨ s.endTime < ts))
    (hv : sender ∉ s.hasVoted)
    (hge : s.encryptedTallies.length ≤ c) (hc : c < U32)
    (hNU : s.encryptedTallies.length ≤ U32)
    (hlt : ∀ t ∈ s.encryptedTallies, t < U32) :
    ∃ s', submitEncryptedVote s sender ts c true = .ok s' ∧
      s'.encryptedTallies = s.encryptedTallies ∧
      sender ∈ s'.hasVoted ∧
      s'.voterCount = s.voterCount + 1 ∧
      (s.encryptedTallies.sum ≤ s.voterCount →
        s'.encryptedTallies.sum < s'.voterCount) := by
  have hcU : c % U32 = c := Nat.mod_eq_of_lt hc
  have hid : tallyIncrement (c % U32) 0 s.encryptedTallies =
      s.encryptedTallies := by
    rw [hcU]
    exact tallyIncrement_id c hc s.encryptedTallies 0 hlt (by omega) (by omega)
  refine ⟨_, submit_ok_eq s sender ts c hw hv, ?_, ?_, rfl, ?_⟩
  · exact hid
  · show sender ∈ sender :: s.hasVoted
    simp
  · intro hle
    show (tallyIncrement (c % U32) 0 s.encryptedTallies).sum <
      s.voterCount + 1
    rw [hid]
    omega

/-- Witness for C3: identity 2 submits encrypted index 7 against the
3-option `samplePoll`; the vote is accepted and counted but no tally
moves. -/
theorem C3_witness :
    ¬((12:Nat) < samplePoll.startTime ∨ samplePoll.endTime < 12) ∧
    (2:Address) ∉ samplePoll.hasVoted ∧
    samplePoll.encryptedTallies.length ≤ 7 ∧ (7:Nat) < U32 ∧
    samplePoll.encryptedTallies.length ≤ U32 ∧
    (∀ t ∈ samplePoll.encryptedTallies, t < U32) ∧
    ∃ s', submitEncryptedVote samplePoll 2 12 7 true = .ok s' ∧
      s'.encryptedTallies = samplePoll.encryptedTallies ∧
      (2:Address) ∈ s'.hasVoted ∧
      s'.voterCount = samplePoll.voterCount + 1 ∧
      (samplePoll.encryptedTallies.sum ≤ samplePoll.voterCount →
        s'.encryptedTallies.sum < s'.voterCount) :=
  ⟨by decide, by decide, by decide, by decide, by decide, by decide,
    C3_out_of_range_vote_counted_but_untallied samplePoll 2 12 7 (by decide)
      (by decide) (by decide) (by decide) (by decide) (by decide)⟩

/-! ### Claim C4 -/

/-- C4 as stated is false on one point: a further call by an identity that
already voted does not always fail with `AlreadyVoted` — outside the
voting window the window check fires first and the call fails with
`VotingClosed` instead.  Identity 7 has voted in `sampleVoted`; calling
again at time 21 (after `endTime = 20`) yields `VotingClosed`. -/
theorem C4_counterexample :
    sampleVoted.hasVoted = [7] ∧
    submitEncryptedVote sampleVoted 7 21 0 true = .error .VotingClosed ∧
    submitEncryptedVote sampleVoted 7 21 0 true ≠ .error .AlreadyVoted := by
  decide

/-- C4 (amended): within the voting window, any further call by an
identity that already voted fails with `AlreadyVoted` and changes
nothing (the `hasVoted` check precedes every ciphertext operation);
outside the window the call fails with `VotingClosed`, likewise with no
state change; and every successful call sets the caller's `hasVoted`
flag (which was previously false) and increments `voterCount` by
exactly one. -/
theorem C4_double_vote_rejected (s : PollState) (sender ts c : Nat)
    (p : Bool) :
    (¬(ts < s.startTime ∨ s.endTime < ts) → sender ∈ s.hasVoted →
      submitEncryptedVote s sender ts c p = .error .AlreadyVoted ∧
      txApply s ts (.submit sender c p) = s) ∧
    ((ts < s.startTime ∨ s.endTime < ts) →
      submitEncryptedVote s sender ts c p = .error .VotingClosed ∧
      txApply s ts (.submit sender c p) = s) ∧
    (∀ s', submitEncryptedVote s sender ts c p = .ok s' →
      sender ∈ s'.hasVoted ∧ s'.voterCount = s.voterCount + 1 ∧
      sender ∉ s.hasVoted) := by
  refine ⟨?_, ?_, ?_⟩
  · intro hw hv
    have herr : submitEncryptedVote s sender ts c p = .error .AlreadyVoted := by
      unfold submitEncryptedVote
      rw [if_neg hw, if_pos hv]
    exact ⟨herr, by simp [txApply, applyOp, herr]⟩
  · intro hw
    have herr : submitEncryptedVote s sender ts c p = .error .VotingClosed := by
      unfold submitEncryptedVote
      rw [if_pos hw]
    exact ⟨herr, by simp [txApply, applyOp, herr]⟩
  · intro s' hok
    rcases submit_cases s sender ts c p with
      ⟨_, h⟩ | ⟨_, _, h⟩ | ⟨_, _, _, h⟩ | ⟨_, hv, _, h⟩
    · rw [h] at hok; exact Except.noConfusion hok
    · rw [h] at hok; exact Except.noConfusion hok
    · rw [h] at hok; exact Except.noConfusion hok
    · rw [h] at hok
      injection hok with hok
      subst hok
      exact ⟨by simp, rfl, hv⟩

/-- Witness for the amended C4: identity 7 (who already voted in
`sampleVoted`) retries at time 12 inside the window and gets
`AlreadyVoted` with no state change. -/
theorem C4_witness :
    ¬((12:Nat) < sampleVoted.startTime ∨ sampleVoted.endTime < 12) ∧
    (7:Address) ∈ sampleVoted.hasVoted ∧
    (submitEncryptedVote sampleVoted 7 12 0 true = .error .AlreadyVoted ∧
      txApply sampleVoted 12 (.submit 7 0 true) = sampleVoted) :=
  ⟨by decide, by decide,
    (C4_double_vote_rejected sampleVoted 7 12 0 true).1 (by decide) (by decide)⟩

/-! ### Claim C6 -/

/-- C6: `submitEncryptedVote` fails with `VotingClosed` for every
timestamp strictly before `startTime` or strictly after `endTime`, and
succeeds for every timestamp inside `[startTime, endTime]` for a fresh
identity with a valid encrypted input. -/
theorem C6_window_gating (s : PollState) (sender ts c : Nat) (p : Bool) :
    ((ts < s.startTime ∨ s.endTime < ts) →
      submitEncryptedVote s sender ts c p = .error .VotingClosed) ∧
    (s.startTime ≤ ts → ts ≤ s.endTime → sender ∉ s.hasVoted →
      ∃ s', submitEncryptedVote s sender ts c true = .ok s') := by
  refine ⟨?_, ?_⟩
  · intro hw
    unfold submitEncryptedVote
    rw [if_pos hw]
  · intro h1 h2 hv
    exact ⟨_, submit_ok_eq s sender ts c (by omega) hv⟩

/-- Witness for C6: at time 25 (past `endTime = 20`) the vote fails with
`VotingClosed`; at time 15 inside the window a fresh identity's vote
succeeds. -/
theorem C6_witness :
    (((25:Nat) < samplePoll.startTime ∨ samplePoll.endTime < 25) ∧
      submitEncryptedVote samplePoll 1 25 0 true = .error .VotingClosed) ∧
    (samplePoll.startTime ≤ 15 ∧ (15:Nat) ≤ samplePoll.endTime ∧
      (1:Address) ∉ samplePoll.hasVoted ∧
      ∃ s', submitEncryptedVote samplePoll 1 15 0 true = .ok s') :=
  ⟨⟨by decide, (C6_window_gating samplePoll 1 25 0 true).1 (by decide)⟩,
    ⟨by decide, by decide, by decide,
      (C6_window_gating samplePoll 1 15 0 true).2 (by decide) (by decide)
        (by decide)⟩⟩

/-! ### Claim C5 -/

/-- C5: after one successful `decryptionCallback`, any second callback
(same or different requestId) fails with `UnexpectedCallback` and
changes nothing; `finalized` is set only inside `decryptionCallback`
(submit and request never change it); and once finalized, no sequence
of transactions ever clears `finalized`, rewrites the clear tallies, or
re-sets `decryptionPending`. -/
theorem C5_finalize_exactly_once (s : PollState) (caller : Address)
    (rid : Nat) (payload : List Nat) (sg : Bool) (s' : PollState)
    (h : decryptionCallback s caller rid payload sg = .ok s') :
    s'.finalized = true ∧ s'.decryptionPending = false ∧
    s'.clearTallies = payload ∧
    (∀ caller2 rid2 payload2 sg2,
      decryptionCallback s' caller2 rid2 payload2 sg2 =
        .error .UnexpectedCallback) ∧
    (∀ now caller2 rid2 payload2 sg2,
      txApply s' now (.callback caller2 rid2 payload2 sg2) = s') ∧
    (∀ u : PollState, ∀ now sender c p,
      (txApply u now (.submit sender c p)).finalized = u.finalized) ∧
    (∀ u : PollState, ∀ now r,
      (txApply u now (.request r)).finalized = u.finalized) ∧
    (∀ txs : List (Nat × Op), (runTxs s' txs).finalized = true ∧
      (runTxs s' txs).clearTallies = s'.clearTallies ∧
      (runTxs s' txs).decryptionPending = false) := by
  rcases callback_cases s caller rid payload sg with
    ⟨_, hr⟩ | ⟨_, _, _, hr⟩ | ⟨_, _, _, _, hr⟩ | ⟨hpen, hrid, hsgt, hlen, hr⟩
  · rw [hr] at h; exact Except.noConfusion h
  · rw [hr] at h; exact Except.noConfusion h
  · rw [hr] at h; exact Except.noConfusion h
  · rw [hr] at h
    injection h with h
    subst h
    have herr : ∀ caller2 rid2 payload2 sg2,
        decryptionCallback ({ s with
          clearTallies := payload
          finalized := true
          decryptionPending := false } : PollState) caller2 rid2 payload2 sg2 =
          .error .UnexpectedCallback := by
      intro caller2 rid2 payload2 sg2
      unfold decryptionCallback
      rw [if_pos (Or.inl rfl)]
    refine ⟨rfl, rfl, rfl, herr, ?_, ?_, ?_, ?_⟩
    · intro now caller2 rid2 payload2 sg2
      simp [txApply, applyOp, herr caller2 rid2 payload2 sg2]
    · intro u now sender c p
      rcases submit_cases u sender now c p with
        ⟨_, h2⟩ | ⟨_, _, h2⟩ | ⟨_, _, _, h2⟩ | ⟨_, _, _, h2⟩ <;>
        simp [txApply, applyOp, h2]
    · intro u now r
      rcases request_cases u now r with
        ⟨_, h2⟩ | ⟨_, _, h2⟩ | ⟨_, _, _, h2⟩ | ⟨_, _, _, h2⟩ <;>
        simp [txApply, applyOp, h2, Except.map]
    · intro txs
      obtain ⟨g1, g2, g3⟩ := runTxs_final_stable txs ({ s with
        clearTallies := payload
        finalized := true
        decryptionPending := false } : PollState) rfl rfl
      exact ⟨g1, g3, g2⟩

/-- Witness for C5: `samplePending` accepts the matching callback
(id 5, payload `[1, 2, 0]`) and reaches `sampleFinal`. -/
theorem C5_witness :
    decryptionCallback samplePending 9 5 [1, 2, 0] true = .ok sampleFinal ∧
    (sampleFinal.finalized = true ∧ sampleFinal.decryptionPending = false ∧
    sampleFinal.clearTallies = [1, 2, 0] ∧
    (∀ caller2 rid2 payload2 sg2,
      decryptionCallback sampleFinal caller2 rid2 payload2 sg2 =
        .error .UnexpectedCallback) ∧
    (∀ now caller2 rid2 payload2 sg2,
      txApply sampleFinal now (.callback caller2 rid2 payload2 sg2) =
        sampleFinal) ∧
    (∀ u : PollState, ∀ now sender c p,
      (txApply u now (.submit sender c p)).finalized = u.finalized) ∧
    (∀ u : PollState, ∀ now r,
      (txApply u now (.request r)).finalized = u.finalized) ∧
    (∀ txs : List (Nat × Op), (runTxs sampleFinal txs).finalized = true ∧
      (runTxs sampleFinal txs).clearTallies = sampleFinal.clearTallies ∧
      (runTxs sampleFinal txs).decryptionPending = false)) :=
  ⟨by decide, C5_finalize_exactly_once samplePending 9 5 [1, 2, 0] true
    sampleFinal (by decide)⟩

/-! ### Claim C7 -/

/-- C7: in any state reached from construction by a timestamp-monotone
transaction trace, `requestEncryptedTallyDecryption` fails with
`VotingStillOpen` whenever called before `endTime`, with
`AlreadyFinalized` whenever `finalized` holds, and with
`DecryptionAlreadyPending` whenever a request is pending; each failure
leaves the state unchanged. -/
theorem C7_request_gating (nm hl dsc : String) (ls ds : List String)
    (dur dep t0 : Nat) (s0 : PollState)
    (hc : constructor nm hl dsc ls ds dur dep t0 = .ok s0)
    (txs : List (Nat × Op)) (hmono : timesMono t0 txs = true)
    (ts : Nat) (hts : lastTime t0 txs ≤ ts) (rid : Nat) :
    (ts < (runTxs s0 txs).endTime →
      requestEncryptedTallyDecryption (runTxs s0 txs) ts rid =
        .error .VotingStillOpen ∧
      txApply (runTxs s0 txs) ts (.request rid) = runTxs s0 txs) ∧
    ((runTxs s0 txs).finalized = true →
      requestEncryptedTallyDecryption (runTxs s0 txs) ts rid =
        .error .AlreadyFinalized ∧
      txApply (runTxs s0 txs) ts (.request rid) = runTxs s0 txs) ∧
    ((runTxs s0 txs).decryptionPending = true →
      requestEncryptedTallyDecryption (runTxs s0 txs) ts rid =
        .error .DecryptionAlreadyPending ∧
      txApply (runTxs s0 txs) ts (.request rid) = runTxs s0 txs) := by
  obtain ⟨h2, hds, hdur, hs0⟩ := constructor_ok_inv hc
  have hInv0 : Inv s0 t0 := by
    subst hs0
    exact ⟨fun hx => Bool.noConfusion hx, fun hx => Bool.noConfusion hx,
      fun hx => Bool.noConfusion hx.1⟩
  have hInv : Inv (runTxs s0 txs) ts :=
    Inv_mono (Inv_runTxs txs s0 t0 hInv0 hmono) hts
  refine ⟨?_, ?_, ?_⟩
  · intro hlt
    have herr : requestEncryptedTallyDecryption (runTxs s0 txs) ts rid =
        .error .VotingStillOpen := by
      unfold requestEncryptedTallyDecryption
      rw [if_pos (by omega)]
    exact ⟨herr, by simp [txApply, applyOp, herr, Except.map]⟩
  · intro hf
    have hend : (runTxs s0 txs).endTime < ts := hInv.2.1 hf
    have herr : requestEncryptedTallyDecryption (runTxs s0 txs) ts rid =
        .error .AlreadyFinalized := by
      unfold requestEncryptedTallyDecryption
      rw [if_neg (by omega), if_pos hf]
    exact ⟨herr, by simp [txApply, applyOp, herr, Except.map]⟩
  · intro hp
    have hend : (runTxs s0 txs).endTime < ts := hInv.1 hp
    have hnf : (runTxs s0 txs).finalized = false := by
      cases hx : (runTxs s0 txs).finalized
      · rfl
      · exact absurd ⟨hp, hx⟩ hInv.2.2
    have herr : requestEncryptedTallyDecryption (runTxs s0 txs) ts rid =
        .error .DecryptionAlreadyPending := by
      unfold requestEncryptedTallyDecryption
      rw [if_neg (by omega), if_neg (by simp [hnf]), if_pos hp]
    exact ⟨herr, by simp [txApply, applyOp, herr, Except.map]⟩

/-- Witness for C7: on the freshly constructed `samplePoll` (empty trace),
a request at time 15 (before `endTime = 20`) fails `VotingStillOpen`
without touching the state. -/
theorem C7_witness :
    constructor "Poll" "Headline" "Body" ["A", "B", "C"] ["a", "b", "c"]
      10 0 10 = .ok samplePoll ∧
    timesMono 10 [] = true ∧ lastTime 10 [] ≤ 15 ∧
    ((15:Nat) < (runTxs samplePoll []).endTime ∧
      (requestEncryptedTallyDecryption (runTxs samplePoll []) 15 4 =
        .error .VotingStillOpen ∧
      txApply (runTxs samplePoll []) 15 (.request 4) = runTxs samplePoll [])) :=
  ⟨by decide, by decide, by decide,
    ⟨by decide,
      (C7_request_gating "Poll" "Headline" "Body" ["A", "B", "C"]
        ["a", "b", "c"] 10 0 10 samplePoll (by decide) [] (by decide) 15
        (by decide) 4).1 (by decide)⟩⟩

/-! ### Claim C8 -/

/-- C8: with a pending matching request and valid signatures, a callback
payload whose decoded length differs from the option count fails with
`InvalidTallyLength` and leaves the whole state — in particular
`finalized`, `decryptionPending` and the clear tallies — unchanged. -/
theorem C8_length_integrity (s : PollState) (caller : Address) (rid : Nat)
    (payload : List Nat) (now : Nat)
    (hp : s.decryptionPending = true) (hr : rid = s.decryptionRequestId)
    (hNc : s.clearTallies.length = s.options.length)
    (hlen : payload.length ≠ s.options.length) :
    decryptionCallback s caller rid payload true =
      .error .InvalidTallyLength ∧
    txApply s now (.callback caller rid payload true) = s := by
  have herr : decryptionCallback s caller rid payload true =
      .error .InvalidTallyLength := by
    unfold decryptionCallback
    rw [if_neg (by simp [hp, hr]), if_neg (by simp), if_pos (by omega)]
  exact ⟨herr, by simp [txApply, applyOp, herr]⟩

/-- Witness for C8: `samplePending` (3 options, request id 5) rejects a
2-element payload with `InvalidTallyLength` and stays unchanged. -/
theorem C8_witness :
    samplePending.decryptionPending = true ∧
    (5:Nat) = samplePending.decryptionRequestId ∧
    samplePending.clearTallies.length = samplePending.options.length ∧
    ([1, 2] : List Nat).length ≠ samplePending.options.length ∧
    (decryptionCallback samplePending 9 5 [1, 2] true =
      .error .InvalidTallyLength ∧
    txApply samplePending 30 (.callback 9 5 [1, 2] true) = samplePending) :=
  ⟨by decide, by decide, by decide, by decide,
    C8_length_integrity samplePending 9 5 [1, 2] 30 (by decide) (by decide)
      (by decide) (by decide)⟩

/-! ### Claim C10 -/

/-- C10: `decryptionCallback` never inspects the caller — the result is
identical for any two callers — and its acceptance is exactly
determined by the pending flag, the requestId match, the signature
check and the decoded payload length. -/
theorem C10_callback_caller_agnostic (s : PollState) (a b : Address)
    (rid : Nat) (payload : List Nat) (sg : Bool) :
    decryptionCallback s a rid payload sg =
      decryptionCallback s b rid payload sg ∧
    ((∃ s', decryptionCallback s a rid payload sg = .ok s') ↔
      (s.decryptionPending = true ∧ rid = s.decryptionRequestId ∧
        sg = true ∧ payload.length = s.clearTallies.length)) := by
  refine ⟨rfl, ?_, ?_⟩
  · rintro ⟨s', hs'⟩
    rcases callback_cases s a rid payload sg with
      ⟨_, h⟩ | ⟨_, _, _, h⟩ | ⟨_, _, _, _, h⟩ | ⟨hp, hr, hsg, hl, h⟩
    · rw [h] at hs'; exact Except.noConfusion hs'
    · rw [h] at hs'; exact Except.noConfusion hs'
    · rw [h] at hs'; exact Except.noConfusion hs'
    · exact ⟨hp, hr, hsg, hl⟩
  · rintro ⟨hp, hr, hsg, hl⟩
    subst hsg
    refine ⟨{ s with
      clearTallies := payload
      finalized := true
      decryptionPending := false }, ?_⟩
    unfold decryptionCallback
    rw [if_neg (by simp [hp, hr]), if_neg (by simp), if_neg (by omega)]

/-! ### Claim C9 -/

/-- C9 as stated is false on one point: when fewer than 2 labels are
supplied AND the description list length differs, the constructor fails
with `InsufficientOptions` (that check comes first), not with
`MismatchedOptionMetadata`. -/
theorem C9_counterexample :
    (["A"] : List String).length ≠ ([] : List String).length ∧
    constructor "P" "H" "D" ["A"] [] 10 0 0 = .error .InsufficientOptions ∧
    constructor "P" "H" "D" ["A"] [] 10 0 0 ≠
      .error .MismatchedOptionMetadata := by
  decide

/-- C9 (amended): the constructor fails with `InsufficientOptions` for
every label list shorter than 2; with `MismatchedOptionMetadata`
whenever at least 2 labels are supplied and the description list length
differs; with `InvalidVotingDuration` for a zero duration (otherwise
valid inputs); and on every successful construction `startTime <
endTime` holds and the name, headline, description, options, start and
end times are never mutated by any later operation. -/
theorem C9_constructor_validation (nm hl dsc : String) (ls ds : List String)
    (dur dep t0 : Nat) :
    (ls.length < 2 →
      constructor nm hl dsc ls ds dur dep t0 = .error .InsufficientOptions) ∧
    (2 ≤ ls.length → ds.length ≠ ls.length →
      constructor nm hl dsc ls ds dur dep t0 =
        .error .MismatchedOptionMetadata) ∧
    (2 ≤ ls.length → ds.length = ls.length → dur = 0 →
      constructor nm hl dsc ls ds dur dep t0 =
        .error .InvalidVotingDuration) ∧
    (∀ s0, constructor nm hl dsc ls ds dur dep t0 = .ok s0 →
      s0.startTime < s0.endTime ∧
      ∀ txs : List (Nat × Op),
        (runTxs s0 txs).pollName = s0.pollName ∧
        (runTxs s0 txs).pollHeadline = s0.pollHeadline ∧
        (runTxs s0 txs).pollDescription = s0.pollDescription ∧
        (runTxs s0 txs).options = s0.options ∧
        (runTxs s0 txs).startTime = s0.startTime ∧
        (runTxs s0 txs).endTime = s0.endTime) := by
  refine ⟨?_, ?_, ?_, ?_⟩
  · intro hlt
    unfold constructor
    rw [if_pos hlt]
  · intro hge hne
    unfold constructor
    rw [if_neg (by omega), if_pos hne]
  · intro hge heq hd
    unfold constructor
    rw [if_neg (by omega), if_neg (by omega), if_pos hd]
  · intro s0 hok
    obtain ⟨_, _, hdur, hs0⟩ := constructor_ok_inv hok
    refine ⟨?_, ?_⟩
    · subst hs0
      show t0 < t0 + dur
      omega
    · intro txs
      obtain ⟨g1, g2, g3, g4, g5, g6, _⟩ := runTxs_immutable txs s0
      exact ⟨g1, g2, g3, g6, g4, g5⟩

/-- Witness for the amended C9: one label gives `InsufficientOptions`;
two labels with one description give `MismatchedOptionMetadata`; zero
duration gives `InvalidVotingDuration`; and `samplePoll` is built with
`startTime = 10 < 20 = endTime`. -/
theorem C9_witness :
    (constructor "P" "H" "D" ["A"] ["a"] 10 0 0 =
      .error .InsufficientOptions) ∧
    (constructor "P" "H" "D" ["A", "B"] ["a"] 10 0 0 =
      .error .MismatchedOptionMetadata) ∧
    (constructor "P" "H" "D" ["A", "B"] ["a", "b"] 0 0 0 =
      .error .InvalidVotingDuration) ∧
    (constructor "Poll" "Headline" "Body" ["A", "B", "C"] ["a", "b", "c"]
      10 0 10 = .ok samplePoll ∧ samplePoll.startTime < samplePoll.endTime) :=
  ⟨(C9_constructor_validation "P" "H" "D" ["A"] ["a"] 10 0 0).1 (by decide),
   (C9_constructor_validation "P" "H" "D" ["A", "B"] ["a"] 10 0 0).2.1
     (by decide) (by decide),
   (C9_constructor_validation "P" "H" "D" ["A", "B"] ["a", "b"] 0 0 0).2.2.1
     (by decide) (by decide) rfl,
   ⟨by decide,
     ((C9_constructor_validation "Poll" "Headline" "Body" ["A", "B", "C"]
       ["a", "b", "c"] 10 0 10).2.2.2 samplePoll (by decide)).1⟩⟩

/-! ### Claim C2 -/

/-- C2 (amended): for every option list and every sequence of `k`
successful votes by `k` distinct identities, all on in-range options,
with `k < 2^32` (the tally width) and at most `2^32` options, after a
decryption request and the matching honest-oracle callback the sum of
all clear tallies equals `k` and `voterCount = k`. -/
theorem C2_tally_conservation (nm hl dsc : String) (ls ds : List String)
    (dur dep t0 : Nat) (s0 : PollState)
    (h0 : constructor nm hl dsc ls ds dur dep t0 = .ok s0)
    (ts : Nat) (hts : ¬(ts < s0.startTime ∨ s0.endTime < ts))
    (vs : List (Address × Nat))
    (hnd : (vs.map Prod.fst).Nodup)
    (hopt : ∀ v ∈ vs, v.2 < ls.length)
    (hN : ls.length ≤ U32) (hk : vs.length < U32)
    (ts2 : Nat) (hts2 : s0.endTime < ts2) (rid : Nat) (caller : Address) :
    ∃ s1 s2 s3,
      runVotes ts s0 vs = .ok s1 ∧
      requestEncryptedTallyDecryption s1 ts2 rid = .ok (s2, rid) ∧
      decryptionCallback s2 caller rid s2.encryptedTallies true = .ok s3 ∧
      clearTallySum s3 = vs.length ∧
      s3.voterCount = vs.length ∧ s3.finalized = true := by
  obtain ⟨hge2, hds, hdur, hs0⟩ := constructor_ok_inv h0
  subst hs0
  obtain ⟨s1, hrun, hsum, hlen, hvc, hst, hen, hop, hcl, hfin, hpen, hrid2⟩ :=
    runVotes_ok ts vs _ hts
      (by intro v hv; show v.1 ∉ ([] : List Address); simp)
      hnd
      (by
        intro v hv
        show v.2 < (List.replicate ls.length 0).length
        rw [List.length_replicate]
        exact hopt v hv)
      (by
        show (List.replicate ls.length 0).length ≤ U32
        rw [List.length_replicate]
        exact hN)
      (by
        intro t ht
        have ht0 : t = 0 :=
          List.eq_of_mem_replicate
            (show t ∈ List.replicate ls.length 0 from ht)
        omega)
  have hsum1 : s1.encryptedTallies.sum = vs.length := by
    rw [hsum]
    show (List.replicate ls.length 0).sum + vs.length = vs.length
    simp
  have hvc1 : s1.voterCount = vs.length := by
    rw [hvc]
    show 0 + vs.length = vs.length
    omega
  have hend1 : s1.endTime < ts2 := by
    rw [hen]
    exact hts2
  have hfin1 : s1.finalized = false := by rw [hfin]
  have hpen1 : s1.decryptionPending = false := by rw [hpen]
  have hL1 : s1.encryptedTallies.length = ls.length := by
    rw [hlen]
    show (List.replicate ls.length 0).length = ls.length
    simp
  have hL2 : s1.clearTallies.length = ls.length := by
    rw [hcl]
    show (List.replicate ls.length 0).length = ls.length
    simp
  have hOpt1 : s1.options.length = ls.length := by
    rw [hop]
    show ((ls.zip ds).map fun p => (⟨p.1, p.2⟩ : OptionMeta)).length =
      ls.length
    rw [List.length_map, List.length_zip, hds]
    exact Nat.min_self _
  have hreq : requestEncryptedTallyDecryption s1 ts2 rid =
      .ok (({ s1 with
        decryptionPending := true
        decryptionRequestId := rid } : PollState), rid) := by
    unfold requestEncryptedTallyDecryption
    rw [if_neg (by omega), if_neg (by simp [hfin1]),
      if_neg (by simp [hpen1])]
  have hcb : decryptionCallback
      ({ s1 with
        decryptionPending := true
        decryptionRequestId := rid } : PollState)
      caller rid s1.encryptedTallies true =
      .ok ({ s1 with
        decryptionPending := false
        decryptionRequestId := rid
        clearTallies := s1.encryptedTallies
        finalized := true } : PollState) := by
    unfold decryptionCallback
    rw [if_neg (by simp), if_neg (by simp), if_neg (by simp; omega)]
  refine ⟨s1,
    ({ s1 with
      decryptionPending := true
      decryptionRequestId := rid } : PollState),
    ({ s1 with
      decryptionPending := false
      decryptionRequestId := rid
      clearTallies := s1.encryptedTallies
      finalized := true } : PollState),
    hrun, hreq, hcb, ?_, ?_, rfl⟩
  · have h3len : ({ s1 with
        decryptionPending := false
        decryptionRequestId := rid
        clearTallies := s1.encryptedTallies
        finalized := true } : PollState).clearTallies.length =
        ({ s1 with
        decryptionPending := false
        decryptionRequestId := rid
        clearTallies := s1.encryptedTallies
        finalized := true } : PollState).options.length := by
      show s1.encryptedTallies.length = s1.options.length
      omega
    rw [clearTallySum_eq _ rfl h3len]
    show s1.encryptedTallies.sum = vs.length
    exact hsum1
  · show s1.voterCount = vs.length
    exact hvc1

/-- Witness for the amended C2 (the spec's Scenario A): three distinct
identities vote options 0, 1, 1 on the 3-option `samplePoll`; after
request and honest callback the clear tallies sum to 3 and
`voterCount = 3`. -/
theorem C2_witness :
    constructor "Poll" "Headline" "Body" ["A", "B", "C"] ["a", "b", "c"]
      10 0 10 = .ok samplePoll ∧
    ¬((12:Nat) < samplePoll.startTime ∨ samplePoll.endTime < 12) ∧
    (([(1, 0), (2, 1), (3, 1)] : List (Address × Nat)).map Prod.fst).Nodup ∧
    (∀ v ∈ ([(1, 0), (2, 1), (3, 1)] : List (Address × Nat)),
      v.2 < (["A", "B", "C"] : List String).length) ∧
    (["A", "B", "C"] : List String).length ≤ U32 ∧
    ([(1, 0), (2, 1), (3, 1)] : List (Address × Nat)).length < U32 ∧
    samplePoll.endTime < 21 ∧
    ∃ s1 s2 s3,
      runVotes 12 samplePoll [(1, 0), (2, 1), (3, 1)] = .ok s1 ∧
      requestEncryptedTallyDecryption s1 21 7 = .ok (s2, 7) ∧
      decryptionCallback s2 0 7 s2.encryptedTallies true = .ok s3 ∧
      clearTallySum s3 =
        ([(1, 0), (2, 1), (3, 1)] : List (Address × Nat)).length ∧
      s3.voterCount =
        ([(1, 0), (2, 1), (3, 1)] : List (Address × Nat)).length ∧
      s3.finalized = true :=
  ⟨by decide, by decide, by decide, by decide, by decide, by decide,
    by decide,
    C2_tally_conservation "Poll" "Headline" "Body" ["A", "B", "C"]
      ["a", "b", "c"] 10 0 10 samplePoll (by decide) 12 (by decide)
      [(1, 0), (2, 1), (3, 1)] (by decide) (by decide) (by decide)
      (by decide) 21 (by decide) 7 0⟩

/-- `2 ^ 32` distinct identities, every one voting option 0. -/
def cexVotes : List (Address × Nat) := (List.range U32).map fun x => (x, 0)

/-- A fresh two-option poll (`constructor "Poll" "Headline" "Body"
["A","B"] ["a","b"] 10 0 10`). -/
def cexInit : PollState := {
  pollName := "Poll"
  pollHeadline := "Headline"
  pollDescription := "Body"
  startTime := 10
  endTime := 20
  creator := 0
  voterCount := 0
  finalized := false
  decryptionPending := false
  decryptionRequestId := 0
  encryptedTallies := [0, 0]
  clearTallies := [0, 0]
  options := [⟨"A", "a"⟩, ⟨"B", "b"⟩]
  hasVoted := [] }

/-- `cexInit` after the `2 ^ 32` votes of `cexVotes`: the first encrypted
tally has wrapped back to zero. -/
def cexS1 : PollState := { cexInit with
  encryptedTallies := [0, 0]
  hasVoted := (List.range U32).reverse
  voterCount := U32 }

/-- `cexS1` after the decryption request (id 7). -/
def cexS2 : PollState :=
  { cexS1 with decryptionPending := true, decryptionRequestId := 7 }

/-- `cexS2` after the honest-oracle callback. -/
def cexS3 : PollState := { cexS2 with
  clearTallies := [0, 0]
  finalized := true
  decryptionPending := false }

/-- C2 as stated is false for unboundedly many votes: the encrypted
tallies are 32-bit, so `2 ^ 32` successful votes by distinct identities
all on option 0 wrap the counter back to zero; after request and
honest-oracle callback the clear tallies sum to 0 while
`voterCount = k = 2 ^ 32`. -/
theorem C2_counterexample :
    constructor "Poll" "Headline" "Body" ["A", "B"] ["a", "b"] 10 0 10 =
      .ok cexInit ∧
    (cexVotes.map Prod.fst).Nodup ∧
    (∀ v ∈ cexVotes, v.2 < cexInit.options.length) ∧
    cexVotes.length = U32 ∧
    runVotes 12 cexInit cexVotes = .ok cexS1 ∧
    requestEncryptedTallyDecryption cexS1 21 7 = .ok (cexS2, 7) ∧
    decryptionCallback cexS2 0 7 cexS2.encryptedTallies true = .ok cexS3 ∧
    cexS3.voterCount = cexVotes.length ∧
    clearTallySum cexS3 ≠ cexVotes.length := by
  have hlenV : cexVotes.length = U32 := by
    simp [cexVotes]
  refine ⟨by decide, ?_, ?_, hlenV, ?_, ?_, ?_, ?_, ?_⟩
  · have hmap : cexVotes.map Prod.fst = List.range U32 := by
      show ((List.range U32).map fun x => (x, (0:Nat))).map Prod.fst = _
      rw [List.map_map]
      have hcomp : (Prod.fst ∘ fun x : Nat => (x, (0:Nat))) = id := rfl
      rw [hcomp, List.map_id]
    rw [hmap]
    exact List.nodup_range U32
  · intro v hv
    simp only [cexVotes, List.mem_map] at hv
    obtain ⟨x, _, rfl⟩ := hv
    show (0:Nat) < cexInit.options.length
    decide
  · show runVotes 12 cexInit ((List.range U32).map fun x => (x, 0)) =
      .ok cexS1
    rw [runVotes_range 12 cexInit (by decide) 0 0 (by decide) (by decide)
      rfl rfl U32]
    simp [cexS1, cexInit, Nat.mod_self]
  · unfold requestEncryptedTallyDecryption
    rw [if_neg (by decide), if_neg (by decide), if_neg (by decide)]
    rfl
  · unfold decryptionCallback
    rw [if_neg (by decide), if_neg (by simp), if_neg (by decide)]
    rfl
  · rw [hlenV]
    rfl
  · rw [hlenV, clearTallySum_eq cexS3 rfl rfl]
    decide

/-- Witness for C10: two different callers (1 and 2) get the identical
result from `decryptionCallback` on `samplePending`. -/
theorem C10_witness :
    decryptionCallback samplePending 1 5 [1, 2, 3] true =
      decryptionCallback samplePending 2 5 [1, 2, 3] true ∧
    ((∃ s', decryptionCallback samplePending 1 5 [1, 2, 3] true = .ok s') ↔
      (samplePending.decryptionPending = true ∧
        (5:Nat) = samplePending.decryptionRequestId ∧ true = true ∧
        ([1, 2, 3] : List Nat).length = samplePending.clearTallies.length)) :=
  C10_callback_caller_agnostic samplePending 1 2 5 [1, 2, 3] true

end EncryptedPredictionPoll
